import Mathlib

/- Shallow embedding of the postgresql-s3-backup-restore repository:
   delete_backup.js (month-windowed backup-and-delete pipeline) and
   restore.js (restore pipeline), with util.js configuration abstracted.
   Strings are modelled as lists of characters. -/

abbrev Str := List Char

/- ===== Row codec: the serialization step of writeToCompressedFile ===== -/

/-- Calendar timestamp as handed to moment by writeToCompressedFile (the
fields a JS Date exposes when formatted). -/
structure DateVal where
  year : Nat
  month : Nat
  day : Nat
  hour : Nat
  minute : Nat
  second : Nat
  millis : Nat
deriving DecidableEq, Repr

def natStr (n : Nat) : Str := (Nat.repr n).toList

def intStr (n : Int) : Str :=
  if n < 0 then '-' :: natStr n.natAbs else natStr n.natAbs

def pad2 (n : Nat) : Str := if n < 10 then '0' :: natStr n else natStr n

def pad3 (n : Nat) : Str :=
  if n < 10 then '0' :: '0' :: natStr n
  else if n < 100 then '0' :: natStr n
  else natStr n

def pad4 (n : Nat) : Str :=
  if n < 10 then '0' :: '0' :: '0' :: natStr n
  else if n < 100 then '0' :: '0' :: natStr n
  else if n < 1000 then '0' :: natStr n
  else natStr n

/-- moment(date).format with pattern YYYY-MM-DDTHH:mm:ss.SSS and a literal Z
suffix, as used on Date-valued fields in writeToCompressedFile. -/
def momentFormat (d : DateVal) : Str :=
  pad4 d.year ++ '-' :: pad2 d.month ++ '-' :: pad2 d.day ++ 'T' :: pad2 d.hour
    ++ ':' :: pad2 d.minute ++ ':' :: pad2 d.second ++ '.' :: pad3 d.millis ++ ['Z']

/-- Database row value as the pg driver delivers it to the backup script:
null, an integer, a text value, a timestamp (JS Date), or a nested JSON
value carried by its canonical JSON.stringify serialization. -/
inductive JsVal where
  | nullV : JsVal
  | numV (n : Int) : JsVal
  | strV (s : Str) : JsVal
  | dateV (d : DateVal) : JsVal
  | objV (json : Str) : JsVal
deriving DecidableEq, Repr

/-- Replace every double-quote character by two of them, the escaping used
both by the manual JSON escaping in writeToCompressedFile and by the csv
writer when quoting a field. -/
def doubleQuotes : Str → Str
  | [] => []
  | c :: rest =>
    if c = '"' then '"' :: '"' :: doubleQuotes rest else c :: doubleQuotes rest

/-- Field text for one value after the serialization loop of
writeToCompressedFile and the csv writer's stringification of scalars:
Date values are formatted via moment, other object values are wrapped by
hand in quotes with inner quotes doubled, null becomes the empty field,
numbers print in decimal, text passes through unchanged. -/
def serializeVal : JsVal → Str
  | .nullV => []
  | .numV n => intStr n
  | .strV s => s
  | .dateV d => momentFormat d
  | .objV j => '"' :: doubleQuotes j ++ ['"']

/-- csv-writer with alwaysQuote: every field is wrapped in double quotes with
embedded quotes doubled. -/
def csvQuote (f : Str) : Str := '"' :: doubleQuotes f ++ ['"']

/-- One CSV line: quoted fields joined by the comma delimiter. -/
def encodeLine : List Str → Str
  | [] => []
  | [f] => csvQuote f
  | f :: fs => csvQuote f ++ ',' :: encodeLine fs

/-- Full CSV text generated for one batch: a header line of uppercased column
titles, then one line per row in column order, each line terminated by a
newline. -/
def encodeRows (headers : List Str) (rows : List (List JsVal)) : Str :=
  encodeLine (headers.map (List.map Char.toUpper)) ++ '\n' ::
    (rows.map (fun r => encodeLine (r.map serializeVal) ++ ['\n'])).flatten

/-- JS String.prototype.split with separator newline: a string with k
newlines yields k+1 parts. -/
def splitNl : Str → List Str
  | [] => [[]]
  | c :: rest =>
    if c = '\n' then [] :: splitNl rest
    else
      match splitNl rest with
      | h :: t => (c :: h) :: t
      | [] => [[c]]

/-- The validation gate of writeToCompressedFile: the serialized content must
be non-empty and split('\n') must give at least 2 parts, otherwise the batch
is treated as malformed and the writer throws. -/
def csvContentOk (content : Str) : Bool :=
  !content.isEmpty && decide (2 ≤ (splitNl content).length)

/- ===== File-system effects of the archive writer ===== -/

def gzExt : Str := ['.', 'g', 'z']

def fsAdd (p : Str) (fs : List Str) : List Str := if p ∈ fs then fs else p :: fs

def fsRemove (p : Str) (fs : List Str) : List Str := fs.filter (fun q => decide (q ≠ p))

/-- File-system trace of writeToCompressedFile: the uncompressed CSV is
written, the validation gate is checked (on failure the error propagates with
the CSV still on disk), the gzip file is written, the CSV is unlinked, and
the gzip path is returned. Nothing later in processMonth removes the gzip
file. -/
def writeToCompressedFileFS (fs : List Str) (csvPath : Str) (content : Str) :
    List Str × Except Unit Str :=
  let fs1 := fsAdd csvPath fs
  if csvContentOk content then
    let fs2 := fsAdd (csvPath ++ gzExt) fs1
    let fs3 := fsRemove csvPath fs2
    (fs3, .ok (csvPath ++ gzExt))
  else (fs1, .error ())

/-- writeToCompressedFile followed by uploadToS3 as processMonth sequences
them: the S3 put happens only when the writer returned the compressed path.
The S3 store is modelled as the list of stored object paths. -/
def writeThenUpload (fs s3 : List Str) (csvPath : Str) (content : Str) :
    List Str × List Str :=
  match writeToCompressedFileFS fs csvPath content with
  | (fs2, .ok gz) => (fs2, s3 ++ [gz])
  | (fs2, .error _) => (fs2, s3)

/- ===== Batch selector: the CTE delete statement of processMonth ===== -/

/-- One table row: its id, its created_at timestamp (epoch-style number) and
the remaining column payload. -/
structure Row where
  id : Nat
  created_at : Nat
  payload : List (Str × JsVal)
deriving DecidableEq, Repr

def inWindow (lo hi : Nat) (r : Row) : Bool :=
  decide (lo ≤ r.created_at) && decide (r.created_at < hi)

def rowLe (a b : Row) : Prop := a.created_at ≤ b.created_at

instance : DecidableRel rowLe := fun a b => Nat.decLe a.created_at b.created_at

instance : IsTotal Row rowLe := ⟨fun a b => Nat.le_total a.created_at b.created_at⟩

instance : IsTrans Row rowLe := ⟨fun _ _ _ hab hbc => Nat.le_trans hab hbc⟩

/-- The single SQL statement of processMonth: the CTE picks the ids of at
most batchSize rows whose created_at lies in [lo, hi) ordered ascending by
created_at, the DELETE removes the rows with those ids, and RETURNING *
yields the deleted rows. First component: the returned (= deleted) rows;
second component: the table afterwards. -/
def selectAndRemove (lo hi batchSize : Nat) (t : List Row) : List Row × List Row :=
  let chosen := (List.insertionSort rowLe (t.filter (inWindow lo hi))).take batchSize
  let ids := chosen.map Row.id
  (t.filter (fun r => decide (r.id ∈ ids)), t.filter (fun r => decide (r.id ∉ ids)))

/- ===== The batch loop of processMonth ===== -/

inductive DbEv where
  | connect | beginTx | deleteStmt | uploadPut | commitTx | rollbackTx | release
deriving DecidableEq, Repr

inductive BatchRes where
  | emptyBatch | completed | uploadFailed
deriving DecidableEq, Repr

structure BatchStep where
  table : List Row
  uploaded : Bool
  res : BatchRes
  trace : List DbEv
deriving DecidableEq, Repr

/-- One iteration of the while(true) loop in processMonth, with the S3 upload
outcome injected. On an empty selection the code breaks out of the loop right
after BEGIN and the CTE, so the client is released with neither COMMIT nor
ROLLBACK issued. On upload failure the catch block rolls the transaction
back, undoing the uncommitted delete, and rethrows. Only after a successful
upload is the transaction committed, making the delete durable. -/
def processBatchOnce (lo hi batchSize : Nat) (uploadOk : Bool) (t : List Row) :
    BatchStep :=
  let sel := selectAndRemove lo hi batchSize t
  if sel.1.isEmpty then
    ⟨t, false, .emptyBatch, [.connect, .beginTx, .deleteStmt, .release]⟩
  else if uploadOk then
    ⟨sel.2, true, .completed,
      [.connect, .beginTx, .deleteStmt, .uploadPut, .commitTx, .release]⟩
  else
    ⟨t, false, .uploadFailed,
      [.connect, .beginTx, .deleteStmt, .uploadPut, .rollbackTx, .release]⟩

/-- The batch loop of processMonth with all uploads succeeding, run with
explicit fuel (the loop terminates because every non-empty batch strictly
shrinks the window); returns the concatenated event trace and the final
table. -/
def monthLoop : Nat → Nat → Nat → Nat → List Row → List DbEv × List Row
  | 0, _, _, _, t => ([], t)
  | fuel + 1, lo, hi, batchSize, t =>
    let step := processBatchOnce lo hi batchSize true t
    match step.res with
    | .completed =>
      let rest := monthLoop fuel lo hi batchSize step.table
      (step.trace ++ rest.1, rest.2)
    | _ => (step.trace, step.table)

/-- Check of a connection-event trace: every BEGIN must be closed by a COMMIT
or ROLLBACK before the client is released, and no release may happen with a
transaction still open. The boolean argument tracks whether a transaction is
currently open. -/
def txnClosed : List DbEv → Bool → Bool
  | [], openTx => !openTx
  | .beginTx :: rest, openTx => !openTx && txnClosed rest true
  | .commitTx :: rest, _ => txnClosed rest false
  | .rollbackTx :: rest, _ => txnClosed rest false
  | .release :: rest, openTx => !openTx && txnClosed rest false
  | _ :: rest, openTx => txnClosed rest openTx

/- ===== Restore pipeline ===== -/

/-- restoreCsvToTable: BEGIN, stream the file through COPY, COMMIT; on any
failure during the load the transaction is rolled back, so the table is
unchanged, and the error is rethrown. The copyOk flag injects the load
outcome; rows are the records streamed on success. -/
def restoreCsvToTable (copyOk : Bool) (table rows : List (List Str)) :
    List (List Str) × Except Unit Unit :=
  if copyOk then (table ++ rows, .ok ()) else (table, .error ())

/-- downloadAndRestoreS3File with the staging file system and the process
exit code made explicit: the two temporary files are created, the restore is
attempted, any error raised inside the try block is caught and only logged
(never rethrown), the finally block unlinks both temporary files, and script
execution ends with exit code 0 either way. Returns (table, file system,
exit code). -/
def downloadAndRestoreRun (copyOk : Bool) (table rows : List (List Str))
    (fs : List Str) (tmpPath procPath : Str) :
    List (List Str) × List Str × Nat :=
  let fs1 := fsAdd procPath (fsAdd tmpPath fs)
  let step := restoreCsvToTable copyOk table rows
  let fs2 := fsRemove procPath (fsRemove tmpPath fs1)
  (step.1, fs2, 0)

/- ===== csv-parse model (preprocessCsvFile of restore.js) ===== -/

inductive CsvMode where
  | fieldStart | unquoted | quoted | afterQuote
deriving DecidableEq, Repr

/-- One-pass model of the csv-parse configuration used by restore.js: quote
'"', delimiter ',', record terminator newline, skip_empty_lines. The current
field and current record accumulators are kept reversed, completed records are
accumulated reversed. Returns none exactly when csv-parse raises: a quote
left unterminated at end of input, a quote character inside an unquoted
field, or a stray character after a closing quote. -/
def scanCsv : CsvMode → Str → List Str → List (List Str) → Str →
    Option (List (List Str))
  | .fieldStart, _, rec, recs, [] =>
    if rec.isEmpty then some recs.reverse
    else some ((([] :: rec).reverse :: recs).reverse)
  | .fieldStart, f, rec, recs, c :: cs =>
    if c = '"' then scanCsv .quoted f rec recs cs
    else if c = ',' then scanCsv .fieldStart [] (f.reverse :: rec) recs cs
    else if c = '\n' then
      if rec.isEmpty then scanCsv .fieldStart [] [] recs cs
      else scanCsv .fieldStart [] [] ((f.reverse :: rec).reverse :: recs) cs
    else scanCsv .unquoted (c :: f) rec recs cs
  | .unquoted, f, rec, recs, [] => some (((f.reverse :: rec).reverse) :: recs).reverse
  | .unquoted, f, rec, recs, c :: cs =>
    if c = '"' then none
    else if c = ',' then scanCsv .fieldStart [] (f.reverse :: rec) recs cs
    else if c = '\n' then scanCsv .fieldStart [] [] ((f.reverse :: rec).reverse :: recs) cs
    else scanCsv .unquoted (c :: f) rec recs cs
  | .quoted, _, _, _, [] => none
  | .quoted, f, rec, recs, c :: cs =>
    if c = '"' then scanCsv .afterQuote f rec recs cs
    else scanCsv .quoted (c :: f) rec recs cs
  | .afterQuote, f, rec, recs, [] => some (((f.reverse :: rec).reverse) :: recs).reverse
  | .afterQuote, f, rec, recs, c :: cs =>
    if c = '"' then scanCsv .quoted (c :: f) rec recs cs
    else if c = ',' then scanCsv .fieldStart [] (f.reverse :: rec) recs cs
    else if c = '\n' then scanCsv .fieldStart [] [] ((f.reverse :: rec).reverse :: recs) cs
    else none

/-- Parse a whole CSV text into its records, none on a quoting error. -/
def parseCsv (s : Str) : Option (List (List Str)) := scanCsv .fieldStart [] [] [] s

/-- record[header] for every header, as the output row is assembled: with
relax_column_count a short record yields undefined for the missing columns,
which Array.prototype.join renders as empty strings, and extra fields beyond
the header count are discarded. -/
def alignFields (n : Nat) (fields : List Str) : List Str :=
  fields.take n ++ List.replicate (n - fields.length) []

/-- preprocessCsvFile: parse the downloaded CSV (first record = header row),
then write the header names joined by commas and, for every data record, one
unquoted comma-joined line. The result is the list of strings written to the
output stream; a parse error aborts the whole pass and propagates. -/
def preprocessCsvFile (s : Str) : Except Unit (List Str) :=
  match parseCsv s with
  | none => .error ()
  | some [] => .ok []
  | some (hdr :: data) =>
    .ok ((List.intercalate [','] hdr ++ ['\n']) ::
      data.map (fun rec => List.intercalate [','] (alignFields hdr.length rec) ++ ['\n']))

/-- The decoded in-memory records of the restore pipeline for one archive
text: the parsed data records aligned to the header columns (the values the
for-await loop reads out of each record object). -/
def decodeRecords (s : Str) : Option (List (List Str)) :=
  match parseCsv s with
  | none => none
  | some [] => none
  | some (hdr :: data) => some (data.map (alignFields hdr.length))

/- ===== Month windows of backupAndDeleteRows ===== -/

/-- Calendar date as (absolute month index, 1-based day of month), the data
the month loop reads from its JS Date. -/
structure MDate where
  monthIdx : Nat
  day : Nat
deriving DecidableEq, Repr

def isLeap (y : Nat) : Bool := y % 4 == 0 && (y % 100 != 0 || y % 400 == 0)

def daysInMonth (mi : Nat) : Nat :=
  match mi % 12 with
  | 0 => 31
  | 1 => if isLeap (mi / 12) then 29 else 28
  | 2 => 31
  | 3 => 30
  | 4 => 31
  | 5 => 30
  | 6 => 31
  | 7 => 31
  | 8 => 30
  | 9 => 31
  | 10 => 30
  | _ => 31

/-- currentDate.setMonth(currentDate.getMonth() + 1): the month advances by
one keeping the day of month, and JS rolls an out-of-range day forward into
the following month. -/
def addMonthJS (d : MDate) : MDate :=
  if d.day ≤ daysInMonth (d.monthIdx + 1) then ⟨d.monthIdx + 1, d.day⟩
  else ⟨d.monthIdx + 2, d.day - daysInMonth (d.monthIdx + 1)⟩

/-- The comparison currentDate <= endDate on (month, day) dates. -/
def dateLe (a b : MDate) : Bool :=
  decide (a.monthIdx < b.monthIdx) ||
    (a.monthIdx == b.monthIdx && decide (a.day ≤ b.day))

/-- The while loop of backupAndDeleteRows: the month indices whose windows
get processed, in order, for a given current date and end date. Each
processed month index m stands for the half-open window
[first day of month m, first day of month m+1). -/
def processedMonths (cur e : MDate) : List Nat :=
  if dateLe cur e then cur.monthIdx :: processedMonths (addMonthJS cur) e
  else []
termination_by e.monthIdx + 1 - cur.monthIdx
decreasing_by
  rename_i h
  simp only [dateLe, Bool.or_eq_true, Bool.and_eq_true, decide_eq_true_eq, beq_iff_eq] at h
  simp only [addMonthJS]
  split
  · simp only []
    omega
  · simp only []
    omega

/- ===== Heap model of the serialization copy in writeToCompressedFile ===== -/

abbrev RowObj := List (Str × JsVal)

abbrev Heap := List RowObj

def lookupCol (o : RowObj) (c : Str) : Option JsVal :=
  match o.find? (fun kv => decide (kv.1 = c)) with
  | some kv => some kv.2
  | none => none

def setCol (o : RowObj) (c : Str) (v : JsVal) : RowObj :=
  o.map (fun kv => if kv.1 = c then (kv.1, v) else kv)

/-- The reassignment the for-in loop performs on one value of the copied row:
only object-typed values change (Date to its moment format, nested JSON to
its hand-quoted serialization); scalars are left alone. -/
def mutateVal : JsVal → JsVal
  | .dateV d => .strV (momentFormat d)
  | .objV j => .strV ('"' :: doubleQuotes j ++ ['"'])
  | v => v

/-- const newRow = spread of row, then the for-in loop, over an explicit
heap: a fresh copy of the referenced row object is allocated at the end of
the heap and each of its keys is reassigned in place on that copy. Returns
the new heap and the reference to the copy. -/
def serializeRowHeap (h : Heap) (ref : Nat) : Heap × Nat :=
  let obj := h.getD ref []
  let n := h.length
  let h1 := h ++ [obj]
  let h2 := obj.foldl (fun acc kv => acc.set n (setCol (acc.getD n []) kv.1 (mutateVal kv.2))) h1
  (h2, n)

/-- rows.map over the serialization: processes each row reference in order,
threading the heap, and collects the references of the fresh copies. -/
def serializeRowsHeap (h : Heap) : List Nat → Heap × List Nat
  | [] => (h, [])
  | r :: rs =>
    let step := serializeRowHeap h r
    let rest := serializeRowsHeap step.1 rs
    (rest.1, step.2 :: rest.2)

/- ======================= Theorems ======================= -/

/- Helper lemmas (shared infrastructure; not tied to a single claim). -/

theorem splitNl_ne_nil (s : Str) : splitNl s ≠ [] := by
  induction s with
  | nil => simp [splitNl]
  | cons c rest ih =>
    simp only [splitNl]
    split
    · simp
    · cases hs : splitNl rest with
      | nil => exact absurd hs ih
      | cons a b => simp

theorem splitNl_cons_length (c : Char) (rest : Str) :
    (splitNl (c :: rest)).length =
      if c = '\n' then (splitNl rest).length + 1 else (splitNl rest).length := by
  simp only [splitNl]
  split
  · simp
  · cases hs : splitNl rest with
    | nil => exact absurd hs (splitNl_ne_nil rest)
    | cons a b => simp

theorem splitNl_append_newline (h r : Str) :
    2 ≤ (splitNl (h ++ '\n' :: r)).length := by
  induction h with
  | nil =>
    have h1 := splitNl_ne_nil r
    have h2 : 1 ≤ (splitNl r).length := by
      cases hs : splitNl r with
      | nil => exact absurd hs h1
      | cons a b => simp
    rw [List.nil_append, splitNl_cons_length, if_pos rfl]
    omega
  | cons c h' ih =>
    rw [List.cons_append, splitNl_cons_length]
    split <;> omega

theorem gzPath_ne_base (p : Str) : p ++ gzExt ≠ p := by
  intro h
  have := congrArg List.length h
  simp [gzExt] at this

/- ===== C3: per-batch cross-system atomicity ===== -/

/-- C3 counterexample: the claim states that when the upload fails after the
delete, the deleted rows are lost (not restored to the table). On a concrete
one-row table whose row lies in the window, a batch whose upload fails leaves
the table exactly as it was: the catch block of processMonth rolls the
transaction back before the delete is ever committed, so nothing is lost. -/
theorem c3_counterexample :
    (processBatchOnce 0 10 5 false [⟨1, 3, []⟩]).table = [⟨1, 3, []⟩] ∧
    (processBatchOnce 0 10 5 false [⟨1, 3, []⟩]).uploaded = false ∧
    (processBatchOnce 0 10 5 false [⟨1, 3, []⟩]).res = .uploadFailed := by
  decide

/-- C3 amended: the database delete and the S3 upload are indeed not one
cross-system transaction, but the commit is sequenced after the upload, so a
failed upload rolls the transaction back: the table is unchanged and nothing
was uploaded — no rows are lost. The residual anomaly is the reverse one
(an uploaded archive whose delete never commits), not data loss. -/
theorem c3_amended (lo hi n : Nat) (t : List Row) :
    (processBatchOnce lo hi n false t).table = t ∧
    (processBatchOnce lo hi n false t).uploaded = false := by
  unfold processBatchOnce
  split
  · simp_all
  · dsimp only
    split <;> simp

/- ===== C4: restore load atomicity and fatal propagation ===== -/

/-- C4 counterexample: the claim states the restore run terminates non-zero
on a load failure. On a concrete failing load the transaction is rolled back
(the table keeps only its prior contents) and restoreCsvToTable rethrows,
but downloadAndRestoreS3File catches the error, merely logs it, and the
script finishes with exit code 0. -/
theorem c4_counterexample :
    (downloadAndRestoreRun false [[['x']]] [[['y']]] [] ['t'] ['p']).2.2 = 0 ∧
    (downloadAndRestoreRun false [[['x']]] [[['y']]] [] ['t'] ['p']).1 = [[['x']]] ∧
    restoreCsvToTable false [[['x']]] [[['y']]] = ([[['x']]], .error ()) :=
  ⟨by decide, by decide, rfl⟩

/-- C4 amended: the bulk load is transactional — on failure the table is
unchanged (rollback, no partial load) and restoreCsvToTable propagates the
error; but the top-level restore routine swallows the error, so the run
still ends with exit code 0 rather than terminating non-zero. On success the
rows are appended and the transaction commits. -/
theorem c4_amended (table rows : List (List Str)) (fs : List Str) (tmp proc : Str) :
    restoreCsvToTable false table rows = (table, .error ()) ∧
    (downloadAndRestoreRun false table rows fs tmp proc).1 = table ∧
    (downloadAndRestoreRun false table rows fs tmp proc).2.2 = 0 ∧
    restoreCsvToTable true table rows = (table ++ rows, .ok ()) :=
  ⟨rfl, rfl, rfl, rfl⟩

/- ===== C5: transaction lifecycle invariant ===== -/

/-- C5 failing run: processing a one-row month window with every upload
succeeding. The first iteration commits, but the terminating iteration —
whose selection is empty — executes BEGIN, then breaks out of the loop and
releases the client without COMMIT or ROLLBACK, so the trace ends with a
release while a transaction is still open and the lifecycle check fails. -/
theorem c5_code_bug :
    (monthLoop 2 0 10 5 [⟨1, 3, []⟩]).1 =
      [.connect, .beginTx, .deleteStmt, .uploadPut, .commitTx, .release,
       .connect, .beginTx, .deleteStmt, .release] ∧
    txnClosed (monthLoop 2 0 10 5 [⟨1, 3, []⟩]).1 false = false := by
  decide

/- ===== C8: archive writer validation gate ===== -/

/-- C8: if the serialized content splits into fewer than 2 lines the writer
raises the malformed-batch error and the S3 store receives nothing; and any
content consisting of a header line, a newline and more (header plus at
least one data row) passes the gate. -/
theorem c8_validation_gate (fs s3 : List Str) (p c h r : Str)
    (hlt : (splitNl c).length < 2) :
    (writeToCompressedFileFS fs p c).2 = .error () ∧
    (writeThenUpload fs s3 p c).2 = s3 ∧
    csvContentOk (h ++ '\n' :: r) = true := by
  have hg : csvContentOk c = false := by
    have hn : ¬(2 ≤ (splitNl c).length) := by omega
    simp [csvContentOk, hn]
  refine ⟨?_, ?_, ?_⟩
  · simp [writeToCompressedFileFS, hg]
  · simp [writeThenUpload, writeToCompressedFileFS, hg]
  · have hne : (h ++ '\n' :: r) ≠ [] := by simp
    have h2 := splitNl_append_newline h r
    simp [csvContentOk, List.isEmpty_iff, hne, h2]

/-- C8 witness: a one-character content has a single split part, so the gate
rejects it and no upload happens; a concrete header-plus-row content passes. -/
theorem c8_witness :
    (splitNl ['x']).length < 2 ∧
    ((writeToCompressedFileFS [] ['f'] ['x']).2 = .error () ∧
      (writeThenUpload [] [] ['f'] ['x']).2 = [] ∧
      csvContentOk (['H'] ++ '\n' :: ['R']) = true) :=
  ⟨by decide, c8_validation_gate [] [] ['f'] ['x'] ['H'] ['R'] (by decide)⟩

/- ===== C9: archive writer staging cleanup ===== -/

/-- C9 counterexample: the claim states no staging file persists after the
writer finishes, on success or failure. On a concrete successful batch the
compressed .csv.gz file is still present in the staging directory when the
writer returns (and nothing later in processMonth removes it). -/
theorem c9_counterexample :
    (['f'] ++ gzExt) ∈ (writeToCompressedFileFS [] ['f'] ['h', '\n', 'r']).1 ∧
    (writeToCompressedFileFS [] ['f'] ['h', '\n', 'r']).2 = .ok (['f'] ++ gzExt) :=
  ⟨by decide, rfl⟩

/-- C9 amended: on the success path the uncompressed CSV is removed but the
compressed file persists; on the validation-failure path the CSV itself also
persists. Stated as exact membership conditions on the staging directory
after the writer finishes. -/
theorem c9_amended (fs : List Str) (p c : Str) :
    (p ∈ (writeToCompressedFileFS fs p c).1 ↔ csvContentOk c = false) ∧
    ((p ++ gzExt) ∈ (writeToCompressedFileFS fs p c).1 ↔
      (csvContentOk c = true ∨ (p ++ gzExt) ∈ fs)) := by
  have hne := gzPath_ne_base p
  cases hcg : csvContentOk c with
  | false =>
    constructor
    · by_cases hp : p ∈ fs <;>
        simp [writeToCompressedFileFS, fsAdd, hcg, hp]
    · by_cases hp : p ∈ fs <;>
        simp [writeToCompressedFileFS, fsAdd, hcg, hp, hne]
  | true =>
    constructor
    · simp [writeToCompressedFileFS, fsAdd, fsRemove, hcg, List.mem_filter]
    · by_cases hp : p ∈ fs <;>
        by_cases hgz : (p ++ gzExt) ∈ fs <;>
          simp [writeToCompressedFileFS, fsAdd, fsRemove, hcg, hp, hgz,
            List.mem_filter, hne]

/- ===== C10: serialization does not mutate its input rows ===== -/

theorem foldl_set_getD (os : List (Str × JsVal)) (n i : Nat) (hne : n ≠ i) :
    ∀ acc : Heap,
      ((os.foldl (fun a kv => a.set n (setCol (a.getD n []) kv.1 (mutateVal kv.2)))
        acc).getD i []) = acc.getD i [] := by
  induction os with
  | nil => intro acc; rfl
  | cons kv os ih =>
    intro acc
    rw [List.foldl_cons, ih]
    simp [List.getD_eq_getElem?_getD, List.getElem?_set_ne hne]

theorem foldl_set_length (os : List (Str × JsVal)) (n : Nat) :
    ∀ acc : Heap,
      (os.foldl (fun a kv => a.set n (setCol (a.getD n []) kv.1 (mutateVal kv.2)))
        acc).length = acc.length := by
  induction os with
  | nil => intro acc; rfl
  | cons kv os ih =>
    intro acc
    rw [List.foldl_cons, ih, List.length_set]

theorem serializeRowHeap_getD (h : Heap) (ref i : Nat) (hi : i < h.length) :
    (serializeRowHeap h ref).1.getD i [] = h.getD i [] := by
  unfold serializeRowHeap
  simp only []
  rw [foldl_set_getD _ _ _ (by omega)]
  simp [List.getD_eq_getElem?_getD, List.getElem?_append_left hi]

theorem serializeRowHeap_length (h : Heap) (ref : Nat) :
    (serializeRowHeap h ref).1.length = h.length + 1 := by
  unfold serializeRowHeap
  simp only []
  rw [foldl_set_length]
  simp

/-- C10: the serialization step of writeToCompressedFile builds shallow
copies before reformatting timestamp and nested-object fields, so after the
whole rows.map pass every original row object in the heap still maps each
column name to its original value. -/
theorem c10_no_input_mutation (refs : List Nat) :
    ∀ (h : Heap) (i : Nat) (c : Str), i < h.length →
      lookupCol ((serializeRowsHeap h refs).1.getD i []) c
        = lookupCol (h.getD i []) c := by
  induction refs with
  | nil => intro h i c _; rfl
  | cons r rs ih =>
    intro h i c hi
    unfold serializeRowsHeap
    simp only []
    rw [ih (serializeRowHeap h r).1 i c (by rw [serializeRowHeap_length]; omega)]
    rw [serializeRowHeap_getD h r i hi]

/-- C10 witness: a concrete one-object heap with a date-valued and a numeric
column is unchanged at its original reference after serialization. -/
theorem c10_witness :
    0 < ([[(['a'], JsVal.numV 1), (['b'], JsVal.dateV ⟨2022, 3, 1, 0, 0, 0, 0⟩)]] : Heap).length ∧
    lookupCol ((serializeRowsHeap
        [[(['a'], JsVal.numV 1), (['b'], JsVal.dateV ⟨2022, 3, 1, 0, 0, 0, 0⟩)]]
        [0]).1.getD 0 []) ['b']
      = lookupCol (([[(['a'], JsVal.numV 1), (['b'], JsVal.dateV ⟨2022, 3, 1, 0, 0, 0, 0⟩)]] : Heap).getD 0 []) ['b'] :=
  ⟨by decide,
    c10_no_input_mutation [0]
      [[(['a'], JsVal.numV 1), (['b'], JsVal.dateV ⟨2022, 3, 1, 0, 0, 0, 0⟩)]]
      0 ['b'] (by decide)⟩

/- ===== C1: select-delete atomicity of the batch statement ===== -/

/-- C1: the CTE delete statement selects at most batchSize rows of the
window ordered ascending by created_at and, provided ids are unique in the
table (the primary-key invariant), the rows it returns are exactly the rows
it deletes: every returned row was in the window, every returned id is
absent from the resulting table, no other row disappears, the window row
count drops by exactly the number of returned rows, and every returned row
precedes (by created_at) every window row left behind. -/
theorem c1_select_delete_atomicity (lo hi n : Nat) (t : List Row)
    (hnd : (t.map Row.id).Nodup) :
    ((selectAndRemove lo hi n t).1).length ≤ n ∧
    (∀ x ∈ (selectAndRemove lo hi n t).1, inWindow lo hi x = true) ∧
    (∀ x ∈ (selectAndRemove lo hi n t).1, ∀ y ∈ (selectAndRemove lo hi n t).2, y.id ≠ x.id) ∧
    (∀ y ∈ t, y ∈ (selectAndRemove lo hi n t).1 ∨ y ∈ (selectAndRemove lo hi n t).2) ∧
    ((selectAndRemove lo hi n t).2.filter (inWindow lo hi)).length
      = (t.filter (inWindow lo hi)).length - ((selectAndRemove lo hi n t).1).length ∧
    (∀ x ∈ (selectAndRemove lo hi n t).1, ∀ y ∈ (selectAndRemove lo hi n t).2,
      inWindow lo hi y = true → x.created_at ≤ y.created_at) := by
  classical
  have htnd : t.Nodup := List.Nodup.of_map _ hnd
  have hinj : ∀ x ∈ t, ∀ y ∈ t, x.id = y.id → x = y :=
    fun x hx y hy h => List.inj_on_of_nodup_map hnd hx hy h
  set W := inWindow lo hi with hWdef
  set sorted := List.insertionSort rowLe (t.filter W) with hsorted_def
  set chosen := sorted.take n with hchosen_def
  set ids := chosen.map Row.id with hids_def
  have e1 : (selectAndRemove lo hi n t).1 = t.filter (fun r => decide (r.id ∈ ids)) := rfl
  have e2 : (selectAndRemove lo hi n t).2 = t.filter (fun r => decide (r.id ∉ ids)) := rfl
  have hperm_sorted : List.Perm sorted (t.filter W) := List.perm_insertionSort _ _
  have hfilter_nodup : (t.filter W).Nodup := htnd.filter _
  have hsorted_nodup : sorted.Nodup := hperm_sorted.nodup_iff.mpr hfilter_nodup
  have hchosen_sub : List.Sublist chosen sorted := List.take_sublist n sorted
  have hchosen_nodup : chosen.Nodup := hchosen_sub.nodup hsorted_nodup
  have hchosen_mem : ∀ x ∈ chosen, x ∈ t.filter W :=
    fun x hx => hperm_sorted.mem_iff.mp (hchosen_sub.subset hx)
  have hchosenW : ∀ x ∈ chosen, W x = true :=
    fun x hx => (List.mem_filter.mp (hchosen_mem x hx)).2
  have hchosen_t : ∀ x ∈ chosen, x ∈ t :=
    fun x hx => (List.mem_filter.mp (hchosen_mem x hx)).1
  have hRchosen : ∀ x, (x ∈ t ∧ x.id ∈ ids) ↔ x ∈ chosen := by
    intro x
    constructor
    · rintro ⟨hxt, hxid⟩
      obtain ⟨c, hc, hcid⟩ := List.mem_map.mp hxid
      have hxc : x = c := hinj x hxt c (hchosen_t c hc) hcid.symm
      exact hxc ▸ hc
    · intro hc
      exact ⟨hchosen_t x hc, List.mem_map_of_mem _ hc⟩
  have hR_iff : ∀ x, x ∈ (selectAndRemove lo hi n t).1 ↔ x ∈ chosen := by
    intro x
    rw [e1, List.mem_filter]
    simp only [decide_eq_true_eq]
    exact hRchosen x
  have hR_nodup : (selectAndRemove lo hi n t).1.Nodup := by
    rw [e1]; exact htnd.filter _
  have hperm : List.Perm (selectAndRemove lo hi n t).1 chosen :=
    (List.perm_ext_iff_of_nodup hR_nodup hchosen_nodup).mpr hR_iff
  have hlen : (selectAndRemove lo hi n t).1.length = chosen.length := hperm.length_eq
  have hids_of_mem1 : ∀ x ∈ (selectAndRemove lo hi n t).1, x.id ∈ ids := by
    intro x hx
    rw [e1, List.mem_filter] at hx
    exact of_decide_eq_true hx.2
  have hids_of_mem2 : ∀ y ∈ (selectAndRemove lo hi n t).2, y.id ∉ ids := by
    intro y hy
    rw [e2, List.mem_filter] at hy
    exact of_decide_eq_true hy.2
  refine ⟨?_, ?_, ?_, ?_, ?_, ?_⟩
  · rw [hlen, hchosen_def]
    exact List.length_take_le n sorted
  · intro x hx
    exact hchosenW x ((hR_iff x).mp hx)
  · intro x hx y hy
    intro hxy
    exact hids_of_mem2 y hy (hxy ▸ hids_of_mem1 x hx)
  · intro y hy
    by_cases hid : y.id ∈ ids
    · left; rw [e1, List.mem_filter]; exact ⟨hy, decide_eq_true hid⟩
    · right; rw [e2, List.mem_filter]; exact ⟨hy, decide_eq_true hid⟩
  · have hq : ∀ r ∈ t, (decide (r.id ∈ ids) : Bool) = (decide (r.id ∈ ids) && W r) := by
      intro r hr
      cases hd : (decide (r.id ∈ ids) : Bool) with
      | false => simp
      | true =>
        have : r ∈ chosen := (hRchosen r).mp ⟨hr, of_decide_eq_true hd⟩
        rw [hchosenW r this]
        simp
    have step_a : (selectAndRemove lo hi n t).2.filter W
        = (t.filter W).filter (fun r => !(decide (r.id ∈ ids))) := by
      rw [e2, List.filter_filter, List.filter_filter]
      apply List.filter_congr
      intro a _
      simp [decide_not, Bool.and_comm]
    have step_b := @List.length_eq_length_filter_add Row (t.filter W)
      (fun r => decide (r.id ∈ ids))
    have step_c : (t.filter W).filter (fun r => decide (r.id ∈ ids))
        = t.filter (fun r => decide (r.id ∈ ids)) := by
      rw [List.filter_filter]
      symm
      apply List.filter_congr
      intro a ha
      exact hq a ha
    rw [step_a]
    rw [step_c] at step_b
    rw [e1] at *
    omega
  · have hsorted_sorted : List.Sorted rowLe sorted := List.sorted_insertionSort rowLe _
    have hsplit : chosen ++ sorted.drop n = sorted := List.take_append_drop n sorted
    have hpair : ∀ x ∈ chosen, ∀ y ∈ sorted.drop n, rowLe x y := by
      have hs := hsorted_sorted
      rw [← hsplit] at hs
      exact fun x hx y hy => (List.pairwise_append.mp hs).2.2 x hx y hy
    intro x hx y hy hWy
    have hxchosen : x ∈ chosen := (hR_iff x).mp hx
    have hyt : y ∈ t := by
      rw [e2, List.mem_filter] at hy
      exact hy.1
    have hynotids : y.id ∉ ids := hids_of_mem2 y hy
    have hysorted : y ∈ sorted := hperm_sorted.mem_iff.mpr (List.mem_filter.mpr ⟨hyt, hWy⟩)
    have hynotchosen : y ∉ chosen := fun hc => hynotids (List.mem_map_of_mem _ hc)
    have hydrop : y ∈ sorted.drop n := by
      rw [← hsplit] at hysorted
      rcases List.mem_append.mp hysorted with h | h
      · exact absurd h hynotchosen
      · exact h
    exact hpair x hxchosen y hydrop

/-- C1 witness: a concrete three-row table with unique ids, window [0, 10)
and batch size 1. -/
theorem c1_witness :
    (([⟨1, 5, []⟩, ⟨2, 7, []⟩, ⟨3, 20, []⟩] : List Row).map Row.id).Nodup ∧
    (((selectAndRemove 0 10 1 [⟨1, 5, []⟩, ⟨2, 7, []⟩, ⟨3, 20, []⟩]).1).length ≤ 1 ∧
      (∀ x ∈ (selectAndRemove 0 10 1 [⟨1, 5, []⟩, ⟨2, 7, []⟩, ⟨3, 20, []⟩]).1,
        inWindow 0 10 x = true) ∧
      (∀ x ∈ (selectAndRemove 0 10 1 [⟨1, 5, []⟩, ⟨2, 7, []⟩, ⟨3, 20, []⟩]).1,
        ∀ y ∈ (selectAndRemove 0 10 1 [⟨1, 5, []⟩, ⟨2, 7, []⟩, ⟨3, 20, []⟩]).2,
          y.id ≠ x.id) ∧
      (∀ y ∈ ([⟨1, 5, []⟩, ⟨2, 7, []⟩, ⟨3, 20, []⟩] : List Row),
        y ∈ (selectAndRemove 0 10 1 [⟨1, 5, []⟩, ⟨2, 7, []⟩, ⟨3, 20, []⟩]).1 ∨
        y ∈ (selectAndRemove 0 10 1 [⟨1, 5, []⟩, ⟨2, 7, []⟩, ⟨3, 20, []⟩]).2) ∧
      ((selectAndRemove 0 10 1
          [⟨1, 5, []⟩, ⟨2, 7, []⟩, ⟨3, 20, []⟩]).2.filter (inWindow 0 10)).length
        = (([⟨1, 5, []⟩, ⟨2, 7, []⟩, ⟨3, 20, []⟩] : List Row).filter (inWindow 0 10)).length
          - ((selectAndRemove 0 10 1 [⟨1, 5, []⟩, ⟨2, 7, []⟩, ⟨3, 20, []⟩]).1).length ∧
      (∀ x ∈ (selectAndRemove 0 10 1 [⟨1, 5, []⟩, ⟨2, 7, []⟩, ⟨3, 20, []⟩]).1,
        ∀ y ∈ (selectAndRemove 0 10 1 [⟨1, 5, []⟩, ⟨2, 7, []⟩, ⟨3, 20, []⟩]).2,
          inWindow 0 10 y = true → x.created_at ≤ y.created_at)) :=
  ⟨by decide,
    c1_select_delete_atomicity 0 10 1 [⟨1, 5, []⟩, ⟨2, 7, []⟩, ⟨3, 20, []⟩] (by decide)⟩

/- ===== C6: partition completeness of month windows ===== -/

theorem daysInMonth_pos (mi : Nat) : 1 ≤ daysInMonth mi := by
  unfold daysInMonth
  split
  all_goals first | omega | (split <;> omega)

theorem addMonthJS_day1 (m : Nat) : addMonthJS ⟨m, 1⟩ = ⟨m + 1, 1⟩ := by
  unfold addMonthJS
  simp [daysInMonth_pos]

theorem dateLe_monthIdx_le {a b : MDate} (h : dateLe a b = true) :
    a.monthIdx ≤ b.monthIdx := by
  simp only [dateLe, Bool.or_eq_true, Bool.and_eq_true, decide_eq_true_eq,
    beq_iff_eq] at h
  rcases h with h | ⟨h, _⟩ <;> omega

theorem processedMonths_day1 (e : MDate) (he : 1 ≤ e.day) :
    ∀ k m, e.monthIdx + 1 - m = k → m ≤ e.monthIdx →
      processedMonths ⟨m, 1⟩ e = List.range' m (e.monthIdx + 1 - m) := by
  intro k
  induction k with
  | zero => intro m hk hm; omega
  | succ k ih =>
    intro m hk hm
    rw [processedMonths]
    have hle : dateLe ⟨m, 1⟩ e = true := by
      simp only [dateLe, Bool.or_eq_true, Bool.and_eq_true, decide_eq_true_eq,
        beq_iff_eq]
      rcases Nat.lt_or_ge m e.monthIdx with h | h
      · left; exact h
      · right; exact ⟨by omega, by omega⟩
    rw [if_pos hle, addMonthJS_day1]
    rcases Nat.lt_or_ge m e.monthIdx with hlt | hge
    · rw [ih (m + 1) (by omega) (by omega)]
      have harith : e.monthIdx + 1 - m = (e.monthIdx + 1 - (m + 1)) + 1 := by omega
      rw [harith, List.range'_succ]
    · have hm_eq : m = e.monthIdx := by omega
      rw [processedMonths]
      have hfalse : ¬(dateLe ⟨m + 1, 1⟩ e = true) := by
        simp only [dateLe, Bool.or_eq_true, Bool.and_eq_true, decide_eq_true_eq,
          beq_iff_eq]
        push_neg
        exact ⟨by omega, fun h => by omega⟩
      rw [if_neg hfalse]
      have harith : e.monthIdx + 1 - m = 1 := by omega
      rw [harith]
      rfl

/-- C6 counterexample: the claim quantifies over every START_DATE <=
END_DATE. With START_DATE in month 0 on day 5 and END_DATE in month 2 on day
4, the loop condition currentDate <= endDate fails as soon as the cursor
reaches month 2 day 5, so only months 0 and 1 are processed: END_DATE itself
lies in [START_DATE, END_DATE] but in none of the processed windows, and the
union of windows falls short of startOfMonthAfterEndDate. -/
theorem c6_counterexample :
    dateLe ⟨0, 5⟩ ⟨2, 4⟩ = true ∧
    dateLe ⟨2, 4⟩ ⟨2, 4⟩ = true ∧
    processedMonths ⟨0, 5⟩ ⟨2, 4⟩ = [0, 1] ∧
    (processedMonths ⟨0, 5⟩ ⟨2, 4⟩).count (⟨2, 4⟩ : MDate).monthIdx = 0 := by
  have heval : processedMonths ⟨0, 5⟩ ⟨2, 4⟩ = [0, 1] := by
    rw [processedMonths]; norm_num [dateLe, addMonthJS, daysInMonth, isLeap]
    rw [processedMonths]; norm_num [dateLe, addMonthJS, daysInMonth, isLeap]
    rw [processedMonths]; norm_num [dateLe]
  refine ⟨by decide, by decide, heval, by rw [heval]; decide⟩

/-- C6 amended: when START_DATE is the first day of its month (as in the
configured YYYY-MM-01 usage), the processed month indices are exactly the
consecutive months from START_DATE's month through END_DATE's month — the
windows tile [startOfStartMonth, startOfMonthAfterEndDate) without gap or
overlap — and every date in [START_DATE, END_DATE] falls in exactly one
processed window. -/
theorem c6_amended (s e : MDate) (hday : s.day = 1) (hse : dateLe s e = true)
    (he : 1 ≤ e.day) :
    processedMonths s e = List.range' s.monthIdx (e.monthIdx + 1 - s.monthIdx) ∧
    (∀ d : MDate, dateLe s d = true → dateLe d e = true →
      (processedMonths s e).count d.monthIdx = 1) := by
  have hm : s.monthIdx ≤ e.monthIdx := dateLe_monthIdx_le hse
  have hs_eta : s = ⟨s.monthIdx, 1⟩ := by
    cases s with
    | mk a b => simp_all
  have hmain : processedMonths s e = List.range' s.monthIdx (e.monthIdx + 1 - s.monthIdx) := by
    conv_lhs => rw [hs_eta]
    exact processedMonths_day1 e he _ s.monthIdx rfl hm
  refine ⟨hmain, ?_⟩
  intro d hsd hde
  rw [hmain]
  apply List.count_eq_one_of_mem
  · exact List.nodup_range' _ _
  · rw [List.mem_range'_1]
    have h1 := dateLe_monthIdx_le hsd
    have h2 := dateLe_monthIdx_le hde
    omega

/-- C6 witness: a three-month range starting on the first of a month. -/
theorem c6_witness :
    (⟨0, 1⟩ : MDate).day = 1 ∧ dateLe ⟨0, 1⟩ ⟨2, 15⟩ = true ∧
      1 ≤ (⟨2, 15⟩ : MDate).day ∧
    processedMonths ⟨0, 1⟩ ⟨2, 15⟩
      = List.range' (⟨0, 1⟩ : MDate).monthIdx
          ((⟨2, 15⟩ : MDate).monthIdx + 1 - (⟨0, 1⟩ : MDate).monthIdx) :=
  ⟨rfl, by decide, by decide,
    (c6_amended ⟨0, 1⟩ ⟨2, 15⟩ rfl (by decide) (by decide)).1⟩

/- ===== C2 and C7: row codec round trip and malformed-record handling ===== -/

theorem scan_quoted_body (g : Str) : ∀ (f : Str) (rec : List Str) (recs : List (List Str)) (rest : Str),
    scanCsv .quoted f rec recs (doubleQuotes g ++ '"' :: rest)
      = scanCsv .afterQuote (g.reverse ++ f) rec recs rest := by
  induction g with
  | nil =>
    intro f rec recs rest
    simp [doubleQuotes, scanCsv]
  | cons c g ih =>
    intro f rec recs rest
    by_cases hc : c = '"'
    · subst hc
      simp [doubleQuotes, scanCsv, ih]
    · simp [doubleQuotes, scanCsv, hc, ih]

theorem scan_encodeLine (fields : List Str) (hne : fields ≠ []) :
    ∀ (rec : List Str) (recs : List (List Str)) (rest : Str),
    scanCsv .fieldStart [] rec recs (encodeLine fields ++ '\n' :: rest)
      = scanCsv .fieldStart [] [] ((rec.reverse ++ fields) :: recs) rest := by
  induction fields with
  | nil => exact absurd rfl hne
  | cons f fs ih =>
    intro rec recs rest
    cases fs with
    | nil =>
      simp [encodeLine, csvQuote, scanCsv, scan_quoted_body]
    | cons f2 fs2 =>
      have hih := ih (by simp)
      simp [encodeLine, csvQuote, scanCsv, scan_quoted_body, hih]

theorem scan_lines (lns : List (List Str)) : ∀ (recs : List (List Str)),
    (∀ l ∈ lns, l ≠ []) →
    scanCsv .fieldStart [] [] recs ((lns.map (fun l => encodeLine l ++ ['\n'])).flatten)
      = some (recs.reverse ++ lns) := by
  induction lns with
  | nil =>
    intro recs _
    simp [scanCsv]
  | cons l ls ih =>
    intro recs hne
    have hl : l ≠ [] := hne l (by simp)
    have hassoc : (((l :: ls).map (fun l => encodeLine l ++ ['\n'])).flatten : Str)
        = encodeLine l ++ '\n' :: ((ls.map (fun l => encodeLine l ++ ['\n'])).flatten) := by
      simp
    rw [hassoc, scan_encodeLine l hl [] recs]
    simp only [List.reverse_nil, List.nil_append]
    rw [ih (l :: recs) (fun x hx => hne x (List.mem_cons_of_mem l hx))]
    simp

theorem parseCsv_encodeRows (headers : List Str) (rows : List (List JsVal))
    (hh : headers ≠ []) (hr : ∀ r ∈ rows, r ≠ []) :
    parseCsv (encodeRows headers rows)
      = some (headers.map (List.map Char.toUpper)
          :: rows.map (fun r => r.map serializeVal)) := by
  have hne : ∀ l ∈ (headers.map (List.map Char.toUpper)
      :: rows.map (fun r => r.map serializeVal)), l ≠ [] := by
    intro l hl
    rcases List.mem_cons.mp hl with h | h
    · subst h
      intro hnil
      rw [List.map_eq_nil_iff] at hnil
      exact hh hnil
    · obtain ⟨r, hr0, hrl⟩ := List.mem_map.mp h
      subst hrl
      intro hnil
      rw [List.map_eq_nil_iff] at hnil
      exact hr r hr0 hnil
  have hshape : encodeRows headers rows
      = (((headers.map (List.map Char.toUpper))
          :: rows.map (fun r => r.map serializeVal)).map
            (fun l => encodeLine l ++ ['\n'])).flatten := by
    unfold encodeRows
    simp only [List.map_cons, List.flatten_cons, List.map_map, Function.comp_def,
      List.append_assoc, List.singleton_append]
  unfold parseCsv
  rw [hshape,
    scan_lines (headers.map (List.map Char.toUpper)
      :: rows.map (fun r => r.map serializeVal)) [] hne]
  simp

/-- C2 amended: decoding an archive record produced by the backup encoding
reproduces every field's encoded text exactly — for null fields the empty
string, for numeric fields the decimal text, for text fields (including
embedded delimiters and doubled quotes) the original string unchanged, and
for timestamps the moment-formatted string — i.e. the round trip is lossless
through the CSV quoting layer. (For nested-object fields the recovered text
keeps the extra hand-applied quoting layer; see the counterexample.) -/
theorem c2_amended (headers : List Str) (rows : List (List JsVal))
    (hh : headers ≠ []) (hlen : ∀ r ∈ rows, r.length = headers.length) :
    decodeRecords (encodeRows headers rows) = some (rows.map (List.map serializeVal)) := by
  have hr : ∀ r ∈ rows, r ≠ [] := by
    intro r hr0 hnil
    subst hnil
    have := hlen [] hr0
    simp at this
    exact hh (List.eq_nil_of_length_eq_zero this.symm)
  unfold decodeRecords
  rw [parseCsv_encodeRows headers rows hh hr]
  simp only []
  congr 1
  have halign : ∀ r ∈ rows,
      alignFields (headers.map (List.map Char.toUpper)).length (r.map serializeVal)
        = r.map serializeVal := by
    intro r hr0
    unfold alignFields
    have hl : (r.map serializeVal).length = (headers.map (List.map Char.toUpper)).length := by
      rw [List.length_map, List.length_map, hlen r hr0]
    rw [← hl, List.take_length, Nat.sub_self]
    simp
  calc (rows.map (fun r => r.map serializeVal)).map
        (alignFields (headers.map (List.map Char.toUpper)).length)
      = rows.map (fun r =>
          alignFields (headers.map (List.map Char.toUpper)).length (r.map serializeVal)) := by
        rw [List.map_map]; rfl
    _ = rows.map (fun r => r.map serializeVal) := List.map_congr_left halign

/-- C2 counterexample: for a nested-object value the round trip is not
lossless as parsed structures. The JSON text [1] is hand-wrapped in quotes
by the serializer and then quoted again by the csv writer, so the decoded
field is the text "[1]" with literal quotes — not the canonical JSON
serialization of the nested value. -/
theorem c2_counterexample :
    decodeRecords (encodeRows [['d']] [[JsVal.objV ['[', '1', ']']]])
      = some [[['"', '[', '1', ']', '"']]] ∧
    serializeVal (JsVal.objV ['[', '1', ']']) = ['"', '[', '1', ']', '"'] ∧
    (['"', '[', '1', ']', '"'] : Str) ≠ ['[', '1', ']'] := by
  refine ⟨by decide, by decide, by decide⟩

/-- C2 witness: a row with null, numeric, text-with-delimiter-and-quote and
timestamp values decodes to exactly its encoded field texts. -/
theorem c2_witness :
    ([['a'], ['b'], ['c'], ['d']] : List Str) ≠ [] ∧
    (∀ r ∈ ([[JsVal.nullV, JsVal.numV 12, JsVal.strV ['x', ',', '"', 'y'],
        JsVal.dateV ⟨2022, 3, 1, 10, 30, 5, 7⟩]] : List (List JsVal)),
      r.length = ([['a'], ['b'], ['c'], ['d']] : List Str).length) ∧
    decodeRecords (encodeRows [['a'], ['b'], ['c'], ['d']]
        [[JsVal.nullV, JsVal.numV 12, JsVal.strV ['x', ',', '"', 'y'],
          JsVal.dateV ⟨2022, 3, 1, 10, 30, 5, 7⟩]])
      = some (([[JsVal.nullV, JsVal.numV 12, JsVal.strV ['x', ',', '"', 'y'],
          JsVal.dateV ⟨2022, 3, 1, 10, 30, 5, 7⟩]] : List (List JsVal)).map
            (List.map serializeVal)) :=
  ⟨by decide, by decide,
    c2_amended [['a'], ['b'], ['c'], ['d']]
      [[JsVal.nullV, JsVal.numV 12, JsVal.strV ['x', ',', '"', 'y'],
        JsVal.dateV ⟨2022, 3, 1, 10, 30, 5, 7⟩]] (by decide) (by decide)⟩

/-- C7 counterexample: the claim says a malformed record (unterminated
quote) is skipped with a warning and the remaining records still processed.
On a concrete archive whose middle record opens a quote that is never
closed, the whole decode aborts with an error and nothing is emitted — the
well-formed record after the malformed one is never processed — while the
same input without the malformed record processes every record. -/
theorem c7_counterexample :
    preprocessCsvFile ['A', '\n', '"', 'x', '"', '\n', '"', 'b', '\n', 'z', '\n']
      = .error () ∧
    preprocessCsvFile ['A', '\n', '"', 'x', '"', '\n', 'z', '\n']
      = .ok [['A', '\n'], ['x', '\n'], ['z', '\n']] :=
  ⟨rfl, rfl⟩

/-- C7 amended: the relaxed tolerance is real — every record the parser
accepts, including records whose column count mismatches the header, is
processed and yields exactly one output line (no record is skipped) — but a
record with an unterminated quote is not skipped with a warning: csv-parse
raises, the error aborts the whole decode of the file, and the restore of
that archive is abandoned (the counterexample exhibits the abort). -/
theorem c7_amended (s : Str) (hdr : List Str) (data : List (List Str))
    (hp : parseCsv s = some (hdr :: data)) :
    ∃ w, preprocessCsvFile s = .ok w ∧ w.length = data.length + 1 := by
  unfold preprocessCsvFile
  rw [hp]
  exact ⟨_, rfl, by simp⟩

/-- C7 witness: a file whose data records have fewer and more columns than
the header still yields one output line per record. -/
theorem c7_witness :
    parseCsv ['a', ',', 'b', '\n', 'x', '\n', 'u', ',', 'v', ',', 'w', '\n']
      = some ([['a'], ['b']] :: [[['x']], [['u'], ['v'], ['w']]]) ∧
    ∃ w, preprocessCsvFile ['a', ',', 'b', '\n', 'x', '\n', 'u', ',', 'v', ',', 'w', '\n']
        = .ok w ∧ w.length = ([[['x']], [['u'], ['v'], ['w']]] : List (List Str)).length + 1 :=
  ⟨by decide,
    c7_amended ['a', ',', 'b', '\n', 'x', '\n', 'u', ',', 'v', ',', 'w', '\n']
      [['a'], ['b']] [[['x']], [['u'], ['v'], ['w']]] (by decide)⟩
